import Mathlib

/-!
Verification development for `download_dryad_dataset.py`.

The Python program is a linear CLI tool: it extracts a Dryad file id from the
argument, fetches metadata over HTTP, streams the file to disk, hashes it with
SHA-256 and compares the hex digest (case-insensitively) to the digest field of
the metadata.  Below we give a shallow embedding of every piece the program
uses and a pure model `mainModel` of one run of `main`, parameterised by the
HTTP responses the environment provides, and prove the specification claims
about it.

Modelling conventions:
  * bytes are `Nat` values (< 256 where it matters), machine words are `Nat`
    reduced `% 2 ^ 32` explicitly;
  * Python `re.search(r'/files/(\d+)', s)` is modelled by a leftmost scan
    with a greedy ASCII-digit capture (`\d` restricted to ASCII digits);
  * Python `str.strip()` / `str.lower()` are modelled on ASCII whitespace and
    ASCII letters respectively, which covers every string the program handles;
  * the file system is a list of directories plus an association list of
    files; pathlib's `mkdir(parents, exist_ok)` and `unlink(missing_ok)` are
    modelled with their documented error behaviour (`Except`);
  * HTTP is modelled by an environment record carrying the status codes and
    bodies the two GET requests would observe; `Response.raise_for_status`
    of the requests library raises exactly for status codes 400..599.
-/

/-- ASCII decimal digit, the model of `\d` in the pattern. -/
def isDigitB (c : Char) : Bool := 48 ≤ c.toNat && c.toNat ≤ 57

/-- ASCII whitespace, the model of the character class `str.strip()` removes. -/
def isPySpace (c : Char) : Bool :=
  c == ' ' || c == '\t' || c == '\n' || c == '\x0d' || c == '\x0b' || c == '\x0c'

/-- Model of Python `str.strip()` on a character list: drop whitespace from
both ends. -/
def stripL (l : List Char) : List Char :=
  ((l.dropWhile isPySpace).reverse.dropWhile isPySpace).reverse

/-- Model of Python `str.strip()`. -/
def pyStrip (s : String) : String := String.mk (stripL s.data)

/-- Try to match the pattern `/files/(\d+)` at the head of `l`; on success
return the (greedy, nonempty) captured digit sequence. -/
def matchAt (l : List Char) : Option (List Char) :=
  if "/files/".data.isPrefixOf l then
    if (l.drop 7).takeWhile isDigitB = [] then none
    else some ((l.drop 7).takeWhile isDigitB)
  else none

/-- Model of `re.search(r'/files/(\d+)', s)`: scan positions left to right and
return the first successful capture. -/
def searchFiles : List Char → Option (List Char)
  | [] => none
  | c :: cs =>
    match matchAt (c :: cs) with
    | some ds => some ds
    | none => searchFiles cs

/-- `extract_file_id` from the source: the captured digits of the first
`/files/(\d+)` match, else the argument stripped of surrounding whitespace. -/
def extract_file_id (arg : String) : String :=
  match searchFiles arg.data with
  | some ds => String.mk ds
  | none => pyStrip arg

/-- Model of Python `template.format(arg)` for the templates the program uses:
replace the first `\x7b\x7d` field with `arg` and keep the remainder.  (The
program's templates contain exactly one field at the point of each call.) -/
def pyFormat1L (a : List Char) : List Char → List Char
  | [] => []
  | c :: rest =>
    if c = '\x7b' then
      match rest with
      | d :: rest2 => if d = '\x7d' then a ++ rest2 else c :: pyFormat1L a rest
      | [] => [c]
    else c :: pyFormat1L a rest

/-- Model of Python `str.format` with one positional argument. -/
def pyFormat1 (t a : String) : String := String.mk (pyFormat1L a.data t.data)

/-- `DATADRYAD_URL = "https://datadryad.org/{}"` from the source
(braces written as escapes). -/
def DATADRYAD_URL : String := "https://datadryad.org/\x7b\x7d"

/-- `API_FILE = DATADRYAD_URL.format("/api/v2/files/{}")` from the source. -/
def API_FILE : String := pyFormat1 DATADRYAD_URL "/api/v2/files/\x7b\x7d"

/-- The metadata endpoint URL built by `get_metadata`: `API_FILE.format(fid)`. -/
def metadataURL (fid : String) : String := pyFormat1 API_FILE fid

/-- The download URL built by `main`:
`DATADRYAD_URL.format(meta["_links"]["stash:download"]["href"])`. -/
def downloadURL (href : String) : String := pyFormat1 DATADRYAD_URL href

/-! ## SHA-256 (FIPS 180-4), over `Nat` with explicit reduction `% 2 ^ 32`

The source calls `hashlib.sha256`; we embed the algorithm itself so that the
digest the verifier compares is provably the SHA-256 of the file bytes. -/

/-- 32-bit truncation modulus. -/
def M32 : Nat := 2 ^ 32

/-- 32-bit modular addition. -/
def add32 (a b : Nat) : Nat := (a + b) % M32

/-- 32-bit right rotation. -/
def rotr32 (n x : Nat) : Nat := ((x >>> n) ||| (x <<< (32 - n))) % M32

/-- 32-bit bitwise complement. -/
def not32 (x : Nat) : Nat := x ^^^ (M32 - 1)

/-- SHA-256 `Ch` function. -/
def ch32 (x y z : Nat) : Nat := (x &&& y) ^^^ (not32 x &&& z)

/-- SHA-256 `Maj` function. -/
def maj32 (x y z : Nat) : Nat := (x &&& y) ^^^ (x &&& z) ^^^ (y &&& z)

/-- SHA-256 `Σ0`. -/
def bsig0 (x : Nat) : Nat := rotr32 2 x ^^^ rotr32 13 x ^^^ rotr32 22 x

/-- SHA-256 `Σ1`. -/
def bsig1 (x : Nat) : Nat := rotr32 6 x ^^^ rotr32 11 x ^^^ rotr32 25 x

/-- SHA-256 `σ0`. -/
def ssig0 (x : Nat) : Nat := rotr32 7 x ^^^ rotr32 18 x ^^^ (x >>> 3)

/-- SHA-256 `σ1`. -/
def ssig1 (x : Nat) : Nat := rotr32 17 x ^^^ rotr32 19 x ^^^ (x >>> 10)

/-- SHA-256 round constants (FIPS 180-4 §4.2.2, written in decimal). -/
def sha256K : List Nat :=
  [1116352408, 1899447441, 3049323471, 3921009573, 961987163, 1508970993,
   2453635748, 2870763221, 3624381080, 310598401, 607225278, 1426881987,
   1925078388, 2162078206, 2614888103, 3248222580, 3835390401, 4022224774,
   264347078, 604807628, 770255983, 1249150122, 1555081692, 1996064986,
   2554220882, 2821834349, 2952996808, 3210313671, 3336571891, 3584528711,
   113926993, 338241895, 666307205, 773529912, 1294757372, 1396182291,
   1695183700, 1986661051, 2177026350, 2456956037, 2730485921, 2820302411,
   3259730800, 3345764771, 3516065817, 3600352804, 4094571909, 275423344,
   430227734, 506948616, 659060556, 883997877, 958139571, 1322822218,
   1537002063, 1747873779, 1955562222, 2024104815, 2227730452, 2361852424,
   2428436474, 2756734187, 3204031479, 3329325298]

/-- SHA-256 initial hash value (FIPS 180-4 §5.3.3, written in decimal). -/
def sha256H0 : List Nat :=
  [1779033703, 3144134277, 1013904242, 2773480762,
   1359893119, 2600822924, 528734635, 1541459225]

/-- One compression round on the state `[a, b, c, d, e, f, g, h]`. -/
def sha256round (st : List Nat) (kw : Nat × Nat) : List Nat :=
  match st with
  | [a, b, c, d, e, f, g, h] =>
    let t1 := add32 h (add32 (bsig1 e) (add32 (ch32 e f g) (add32 kw.1 kw.2)))
    let t2 := add32 (bsig0 a) (maj32 a b c)
    [add32 t1 t2, a, b, c, add32 d t1, e, f, g]
  | other => other

/-- Extend a 16-word block to the 64-word message schedule. -/
def scheduleW (block : List Nat) : List Nat :=
  (List.range 48).foldl
    (fun w _ =>
      let n := w.length
      w ++ [add32 (add32 (ssig1 (w.getD (n - 2) 0)) (w.getD (n - 7) 0))
                  (add32 (ssig0 (w.getD (n - 15) 0)) (w.getD (n - 16) 0))])
    block

/-- Process one 16-word block into the running hash value. -/
def processBlock (h : List Nat) (block : List Nat) : List Nat :=
  let w := scheduleW block
  let st := (sha256K.zip w).foldl sha256round h
  (h.zip st).map (fun p => add32 p.1 p.2)

/-- Big-endian 8-byte encoding of `n % 2 ^ 64`. -/
def toBE64 (n : Nat) : List Nat :=
  let m := n % 2 ^ 64
  [(m >>> 56) % 256, (m >>> 48) % 256, (m >>> 40) % 256, (m >>> 32) % 256,
   (m >>> 24) % 256, (m >>> 16) % 256, (m >>> 8) % 256, m % 256]

/-- SHA-256 padding: `0x80`, zeros to 56 mod 64, then the bit length. -/
def padMessage (msg : List Nat) : List Nat :=
  msg ++ 0x80 :: List.replicate ((119 - msg.length % 64) % 64) 0
      ++ toBE64 (8 * msg.length)

/-- Group bytes into big-endian 32-bit words. -/
def bytesToWords : List Nat → List Nat
  | b0 :: b1 :: b2 :: b3 :: rest =>
    (((b0 * 256 + b1) * 256 + b2) * 256 + b3) :: bytesToWords rest
  | _ => []

/-- Worker for `chunkList`, structurally recursive on a fuel argument that
`chunkList` instantiates with the list length (for `1 ≤ n` each step removes
at least one element, so the fuel never runs out). -/
def chunkGo (n : Nat) : Nat → List α → List (List α)
  | _, [] => []
  | 0, l => [l]
  | fuel + 1, x :: xs => (x :: xs).take n :: chunkGo n fuel ((x :: xs).drop n)

/-- Split a list into consecutive chunks of size `n` (the last one shorter). -/
def chunkList (n : Nat) (l : List α) : List (List α) :=
  if n = 0 then [] else chunkGo n l.length l

/-- The eight 32-bit words of the SHA-256 digest of a byte string. -/
def sha256words (msg : List Nat) : List Nat :=
  (chunkList 16 (bytesToWords (padMessage msg))).foldl processBlock sha256H0

/-- Lowercase hex character for a value `< 16`. -/
def hexDigitChar (n : Nat) : Char :=
  Char.ofNat (if n < 10 then 48 + n else 87 + n)

/-- Eight lowercase hex characters of a 32-bit word, most significant first. -/
def wordHex (w : Nat) : List Char :=
  (List.range 8).map (fun i => hexDigitChar ((w >>> ((7 - i) * 4)) % 16))

/-- Hex-encoded SHA-256 digest of a byte string, the model of
`hashlib.sha256(data).hexdigest()`. -/
def sha256hex (msg : List Nat) : String :=
  String.mk (((sha256words msg).map wordHex).flatten)

/-- `CHUNK = 1024 * 1024` from the source. -/
def CHUNK : Nat := 1024 * 1024

/-- Model of a `hashlib.sha256()` streaming context: extensionally it is the
byte string fed to it so far. -/
structure HashCtx where
  acc : List Nat
deriving DecidableEq

/-- Model of `h.update(chunk)`. -/
def HashCtx.update (h : HashCtx) (chunk : List Nat) : HashCtx := ⟨h.acc ++ chunk⟩

/-- Model of `h.hexdigest()`. -/
def HashCtx.hexdigest (h : HashCtx) : String := sha256hex h.acc

/-- `sha256sum` from the source, applied to the contents of the file at
`path`: feed the bytes to the accumulator in `CHUNK`-sized reads and return
the hex digest. -/
def sha256sum (fileBytes : List Nat) : String :=
  ((chunkList CHUNK fileBytes).foldl HashCtx.update ⟨[]⟩).hexdigest

/-! ## Digest comparison (`actual.lower() != expected.lower()`) -/

/-- Model of Python `str.lower()` on one character (ASCII letters; every
character the program compares is ASCII). -/
def lowerChar (c : Char) : Char :=
  if 65 ≤ c.toNat ∧ c.toNat ≤ 90 then Char.ofNat (c.toNat + 32) else c

/-- Model of Python `str.lower()`. -/
def strLower (s : String) : String := String.mk (s.data.map lowerChar)

/-- The verifier's comparison: `actual.lower() == expected.lower()`
(the source tests the negation and exits on mismatch). -/
def digestsMatch (actual expected : String) : Bool :=
  strLower actual == strLower expected

/-- Lowercase hexadecimal digit. -/
def isHexDigitB (c : Char) : Bool :=
  (48 ≤ c.toNat && c.toNat ≤ 57) || (97 ≤ c.toNat && c.toNat ≤ 102)

/-- Two characters differ at most in ASCII letter case. -/
def caseVariantChar (c d : Char) : Bool :=
  c == d
    || (65 ≤ c.toNat && c.toNat ≤ 90 && d.toNat == c.toNat + 32)
    || (65 ≤ d.toNat && d.toNat ≤ 90 && c.toNat == d.toNat + 32)

/-- Two character lists differ at most in the letter case of corresponding
characters. -/
def caseVariantL : List Char → List Char → Bool
  | [], [] => true
  | c :: cs, d :: ds => caseVariantChar c d && caseVariantL cs ds
  | _, _ => false

/-! ## Paths and the file system

Paths are strings; a normalised absolute path is `/` followed by its nonempty
components joined with `/`.  The file system is the set of existing
directories plus an association list from file paths to byte contents. -/

/-- Split a character list at `/` separators. -/
def splitOnSlash : List Char → List (List Char)
  | [] => [[]]
  | c :: cs =>
    let r := splitOnSlash cs
    if c = '/' then [] :: r
    else
      match r with
      | h :: t => (c :: h) :: t
      | [] => [[c]]

/-- The nonempty `/`-separated components of a path string. -/
def pathComponents (p : String) : List String :=
  ((splitOnSlash p.data).map String.mk).filter (fun c => c ≠ "")

/-- Resolve `.` and `..` components, as `Path.resolve()` does (the model has
no symlinks). -/
def normComponents (cs : List String) : List String :=
  cs.foldl
    (fun acc c =>
      if c = "." then acc
      else if c = ".." then acc.dropLast
      else acc ++ [c]) []

/-- Join component lists with `/` separators. -/
def joinSlash : List (List Char) → List Char
  | [] => []
  | [x] => x
  | x :: xs => x ++ '/' :: joinSlash xs

/-- The normalised absolute path with the given components. -/
def joinComponents (cs : List String) : String :=
  String.mk ('/' :: joinSlash (cs.map String.data))

/-- A path string is absolute when it starts with `/`. -/
def isAbsolute (p : String) : Bool := p.data.head? == some '/'

/-- Model of `Path.expanduser()`: replace a leading `~` with the home
directory. -/
def expanduser (home p : String) : String :=
  match p.data with
  | ['~'] => home
  | '~' :: '/' :: rest => home ++ String.mk ('/' :: rest)
  | _ => p

/-- The file-system state visible to the program. -/
structure FS where
  cwd : String
  home : String
  dirs : List String
  files : List (String × List Nat)
deriving DecidableEq

/-- Model of `Path(p).expanduser().resolve()`: expand `~`, make the path
absolute against the working directory, and normalise it. -/
def resolvePath (fs : FS) (p : String) : String :=
  let q := expanduser fs.home p
  let base := if isAbsolute q then q else fs.cwd ++ "/" ++ q
  joinComponents (normComponents (pathComponents base))

/-- Every ancestor of the path with components `cs`, nearest the root first,
ending with the path itself. -/
def ancestorsOf (cs : List String) : List String :=
  (List.range cs.length).map (fun i => joinComponents (cs.take (i + 1)))

/-- Directory existence (the root always exists). -/
def dirExists (fs : FS) (p : String) : Bool := p == "/" || fs.dirs.contains p

/-- Model of `pathlib.Path.mkdir(parents, exist_ok)` with its documented
error behaviour. -/
def mkdirModel (fs : FS) (p : String) (parents ex_ok : Bool) : Except String FS :=
  if dirExists fs p then
    if ex_ok then .ok fs else .error "FileExistsError"
  else
    let cs := pathComponents p
    if parents then .ok { fs with dirs := fs.dirs ++ ancestorsOf cs }
    else if dirExists fs (joinComponents cs.dropLast) then
      .ok { fs with dirs := fs.dirs ++ [p] }
    else .error "FileNotFoundError"

/-- Model of `dest.open('wb')` followed by writing `bytes`: replace any
previous contents at `p`. -/
def setFile (fs : FS) (p : String) (bytes : List Nat) : FS :=
  { fs with files := (p, bytes) :: fs.files.filter (fun e => !(e.1 == p)) }

/-- The bytes of the file at `p` (empty if absent); model of reading the file
`sha256sum` hashes. -/
def readFileD (fs : FS) (p : String) : List Nat :=
  (fs.files.lookup p).getD []

/-- Model of `Path.unlink(missing_ok)` with its documented error behaviour. -/
def unlinkFile (fs : FS) (p : String) (missing_ok : Bool) : Except String FS :=
  if (fs.files.lookup p).isSome then
    .ok { fs with files := fs.files.filter (fun e => !(e.1 == p)) }
  else if missing_ok then .ok fs
  else .error "FileNotFoundError"

/-- Model of pathlib `dir / name`: an absolute right operand replaces the
left one. -/
def pathJoin (dir name : String) : String :=
  if isAbsolute name then name else dir ++ "/" ++ name

/-! ## A single run of `main` -/

/-- The metadata fields `main` reads from the JSON body: `path`, `digest`,
`size`, and `_links / stash:download / href`. -/
structure Metadata where
  path : String
  digest : String
  size : Nat
  downloadHref : String
deriving DecidableEq

/-- The command-line arguments `--fid` and `--outdir`. -/
structure Args where
  fid : String
  outdir : String
deriving DecidableEq

/-- The responses the network would give to this run's two GET requests. -/
structure Env where
  metaStatus : Nat
  meta : Metadata
  dlStatus : Nat
  dlBytes : List Nat
deriving DecidableEq

/-- Externally visible actions of a run, in order. -/
inductive Event where
  | mkdirCall (path : String)
  | httpGet (url : String)
  | httpGetStream (url : String)
  | fileWrite (path : String)
  | fileUnlink (path : String)
deriving DecidableEq

/-- Outcome of a run: final file system, process exit status, the
`sys.exit` / exception message if any, and the action trace. -/
structure RunResult where
  fs : FS
  exitCode : Nat
  errMsg : Option String
  events : List Event
deriving DecidableEq

/-- `Response.raise_for_status()` of the requests library raises exactly for
status codes 400..599. -/
def raisesForStatus (s : Nat) : Bool := 400 ≤ s && s < 600

/-- A successful HTTP status in the 2xx class. -/
def isSuccessStatus (s : Nat) : Bool := 200 ≤ s && s < 300

/-- The message `main` passes to `sys.exit` on a digest mismatch. -/
def mismatchMsg (expected actual : String) : String :=
  "ERROR: MD5 mismatch! Expected " ++ expected ++ ", got " ++ actual

/-- Pure model of one run of `main`: extract the id, resolve and create the
output directory, fetch metadata (fatal on HTTP error), stream the download
to `outdir / filename` (fatal on HTTP error), hash the written file and
compare digests case-insensitively; on mismatch unlink the file and exit
non-zero.  An uncaught exception or `sys.exit(message)` yields exit code 1. -/
def mainModel (args : Args) (env : Env) (fs0 : FS) : RunResult :=
  let fid := extract_file_id args.fid
  let outdir := resolvePath fs0 args.outdir
  match mkdirModel fs0 outdir true true with
  | .error e => { fs := fs0, exitCode := 1, errMsg := some e, events := [.mkdirCall outdir] }
  | .ok fs1 =>
    let metaUrl := metadataURL fid
    if raisesForStatus env.metaStatus then
      { fs := fs1, exitCode := 1, errMsg := some "HTTPError",
        events := [.mkdirCall outdir, .httpGet metaUrl] }
    else
      let meta := env.meta
      let target := pathJoin outdir meta.path
      let dlUrl := downloadURL meta.downloadHref
      if raisesForStatus env.dlStatus then
        { fs := fs1, exitCode := 1, errMsg := some "HTTPError",
          events := [.mkdirCall outdir, .httpGet metaUrl, .httpGetStream dlUrl] }
      else
        let fs2 := setFile fs1 target env.dlBytes
        let actual := sha256sum (readFileD fs2 target)
        if digestsMatch actual meta.digest then
          { fs := fs2, exitCode := 0, errMsg := none,
            events := [.mkdirCall outdir, .httpGet metaUrl, .httpGetStream dlUrl,
                       .fileWrite target] }
        else
          match unlinkFile fs2 target true with
          | .ok fs3 =>
            { fs := fs3, exitCode := 1, errMsg := some (mismatchMsg meta.digest actual),
              events := [.mkdirCall outdir, .httpGet metaUrl, .httpGetStream dlUrl,
                         .fileWrite target, .fileUnlink target] }
          | .error e =>
            { fs := fs2, exitCode := 1, errMsg := some e,
              events := [.mkdirCall outdir, .httpGet metaUrl, .httpGetStream dlUrl,
                         .fileWrite target, .fileUnlink target] }

set_option maxRecDepth 100000

/-! ## Lemmas about the pattern scan -/

theorem matchAt_eq_some_iff {l ds : List Char} :
    matchAt l = some ds ↔
      "/files/".data.isPrefixOf l = true
      ∧ ds = (l.drop 7).takeWhile isDigitB ∧ ds ≠ [] := by
  unfold matchAt
  by_cases hp : "/files/".data.isPrefixOf l
  · rw [if_pos hp]
    by_cases he : (l.drop 7).takeWhile isDigitB = []
    · rw [if_pos he]
      constructor
      · intro h; exact absurd h (by simp)
      · intro ⟨_, hds, hne⟩; exact absurd (hds.trans he) hne
    · rw [if_neg he]
      constructor
      · intro h; exact ⟨hp, (Option.some.inj h).symm, (Option.some.inj h) ▸ he⟩
      · intro ⟨_, hds, _⟩; rw [hds]
  · rw [if_neg hp]
    constructor
    · intro h; exact absurd h (by simp)
    · intro ⟨hp', _, _⟩; exact absurd hp' hp

theorem matchAt_some_props {l ds : List Char} (h : matchAt l = some ds) :
    ds ≠ [] ∧ ∀ c ∈ ds, isDigitB c = true := by
  obtain ⟨_, hds, hne⟩ := matchAt_eq_some_iff.mp h
  exact ⟨hne, fun c hc => List.mem_takeWhile_imp (hds ▸ hc)⟩

theorem matchAt_head {l ds : List Char} (h : matchAt l = some ds) :
    ∃ t, l = '/' :: t := by
  obtain ⟨hp, _, _⟩ := matchAt_eq_some_iff.mp h
  have := List.isPrefixOf_iff_prefix.mp hp
  obtain ⟨t, ht⟩ := this
  exact ⟨"files/".data ++ t, by rw [← ht]; rfl⟩

theorem searchFiles_eq_none_iff {l : List Char} :
    searchFiles l = none ↔ ∀ i, matchAt (l.drop i) = none := by
  induction l with
  | nil =>
    simp only [searchFiles, List.drop_nil, true_iff]
    intro _
    decide
  | cons c cs ih =>
    constructor
    · intro h i
      cases hm : matchAt (c :: cs) with
      | some ds => simp [searchFiles, hm] at h
      | none =>
        match i with
        | 0 => exact hm
        | i + 1 =>
          simp only [searchFiles, hm] at h
          exact (ih.mp h) i
    · intro h
      have hm : matchAt (c :: cs) = none := h 0
      simp only [searchFiles, hm]
      exact ih.mpr (fun i => h (i + 1))

theorem searchFiles_some_props {l ds : List Char} (h : searchFiles l = some ds) :
    ds ≠ [] ∧ ∀ c ∈ ds, isDigitB c = true := by
  induction l with
  | nil => simp [searchFiles] at h
  | cons c cs ih =>
    cases hm : matchAt (c :: cs) with
    | some ds' =>
      simp only [searchFiles, hm, Option.some.injEq] at h
      exact h ▸ matchAt_some_props hm
    | none =>
      simp only [searchFiles, hm] at h
      exact ih h

theorem searchFiles_isSome_of_matchAt {l : List Char} {i : Nat} {ds : List Char}
    (h : matchAt (l.drop i) = some ds) : ∃ ds', searchFiles l = some ds' := by
  cases hs : searchFiles l with
  | some ds' => exact ⟨ds', rfl⟩
  | none => exact absurd h (by rw [searchFiles_eq_none_iff.mp hs i]; simp)

theorem searchFiles_none_of_no_slash {l : List Char} (h : ∀ c ∈ l, c ≠ '/') :
    searchFiles l = none := by
  induction l with
  | nil => rfl
  | cons c cs ih =>
    have hm : matchAt (c :: cs) = none := by
      cases hm : matchAt (c :: cs) with
      | none => rfl
      | some ds =>
        obtain ⟨t, ht⟩ := matchAt_head hm
        have := h '/' (by rw [ht]; exact List.mem_cons_self _ _)
        exact absurd rfl this
    simp only [searchFiles, hm]
    exact ih (fun c' hc' => h c' (List.mem_cons_of_mem _ hc'))

theorem matchAt_append {x v ds : List Char} (h : matchAt x = some ds) :
    ∃ ds', matchAt (x ++ v) = some ds' := by
  obtain ⟨hp, hds, hne⟩ := matchAt_eq_some_iff.mp h
  obtain ⟨t, ht⟩ := List.isPrefixOf_iff_prefix.mp hp
  have h7 : ("/files/".data).length = 7 := rfl
  subst ht
  rw [List.drop_left' h7] at hds
  cases t with
  | nil => exact absurd (hds.trans (by simp)) hne
  | cons d t' =>
    by_cases hd : isDigitB d
    · refine ⟨d :: (t' ++ v).takeWhile isDigitB, matchAt_eq_some_iff.mpr ⟨?_, ?_, by simp⟩⟩
      · exact List.isPrefixOf_iff_prefix.mpr ⟨d :: (t' ++ v), by simp⟩
      · have hshape : ("/files/".data ++ d :: t') ++ v
            = "/files/".data ++ (d :: (t' ++ v)) := by simp
        rw [hshape, List.drop_left' h7, List.takeWhile_cons_of_pos hd]
    · rw [List.takeWhile_cons_of_neg hd] at hds
      exact absurd hds hne

/-! ## Lemmas about stripping -/

theorem head?_dropWhile_false {p : Char → Bool} {l : List Char} {c : Char}
    (h : (l.dropWhile p).head? = some c) : p c = false := by
  have hm := List.head?_dropWhile_not p l
  rw [h] at hm
  exact hm

theorem dropWhile_eq_self_of_head {p : Char → Bool} {l : List Char}
    (h : ∀ c, l.head? = some c → p c = false) : l.dropWhile p = l := by
  cases l with
  | nil => rfl
  | cons c cs => exact List.dropWhile_cons_of_neg (by simp [h c rfl])

theorem stripL_decomp (l : List Char) :
    ∃ pre suf, l = pre ++ stripL l ++ suf
      ∧ pre.all isPySpace = true ∧ suf.all isPySpace = true := by
  have hB : l.dropWhile isPySpace
      = stripL l ++ ((l.dropWhile isPySpace).reverse.takeWhile isPySpace).reverse := by
    unfold stripL
    calc l.dropWhile isPySpace
        = (l.dropWhile isPySpace).reverse.reverse := by rw [List.reverse_reverse]
      _ = ((l.dropWhile isPySpace).reverse.takeWhile isPySpace
            ++ (l.dropWhile isPySpace).reverse.dropWhile isPySpace).reverse := by
            rw [List.takeWhile_append_dropWhile]
      _ = ((l.dropWhile isPySpace).reverse.dropWhile isPySpace).reverse
            ++ ((l.dropWhile isPySpace).reverse.takeWhile isPySpace).reverse := by
            rw [List.reverse_append]
  refine ⟨l.takeWhile isPySpace,
          ((l.dropWhile isPySpace).reverse.takeWhile isPySpace).reverse, ?_, ?_, ?_⟩
  · conv_lhs => rw [← List.takeWhile_append_dropWhile (p := isPySpace) (l := l), hB]
    rw [List.append_assoc]
  · exact List.all_eq_true.mpr fun x hx => List.mem_takeWhile_imp hx
  · rw [List.all_reverse]
    exact List.all_eq_true.mpr fun x hx => List.mem_takeWhile_imp hx

theorem stripL_suffix_of_dropWhile (l : List Char) :
    ∃ suf, l.dropWhile isPySpace = stripL l ++ suf := by
  refine ⟨((l.dropWhile isPySpace).reverse.takeWhile isPySpace).reverse, ?_⟩
  unfold stripL
  calc l.dropWhile isPySpace
      = (l.dropWhile isPySpace).reverse.reverse := by rw [List.reverse_reverse]
    _ = ((l.dropWhile isPySpace).reverse.takeWhile isPySpace
          ++ (l.dropWhile isPySpace).reverse.dropWhile isPySpace).reverse := by
          rw [List.takeWhile_append_dropWhile]
    _ = _ := by rw [List.reverse_append]

theorem stripL_head {l : List Char} {c : Char} (h : (stripL l).head? = some c) :
    isPySpace c = false := by
  obtain ⟨suf, hsuf⟩ := stripL_suffix_of_dropWhile l
  cases hs : stripL l with
  | nil => rw [hs] at h; exact absurd h (by simp)
  | cons c0 cs0 =>
    rw [hs] at h hsuf
    have hc0 : c0 = c := by simpa using h
    subst hc0
    exact head?_dropWhile_false (p := isPySpace) (l := l) (by rw [hsuf]; rfl)

theorem stripL_getLast {l : List Char} {c : Char} (h : (stripL l).getLast? = some c) :
    isPySpace c = false := by
  unfold stripL at h
  rw [List.getLast?_eq_head?_reverse, List.reverse_reverse] at h
  exact head?_dropWhile_false h

theorem stripL_eq_self {l : List Char} (h : ∀ c ∈ l, isPySpace c = false) :
    stripL l = l := by
  have h1 : l.dropWhile isPySpace = l :=
    dropWhile_eq_self_of_head fun c hc =>
      h c (List.mem_of_mem_head? (Option.mem_def.mpr hc))
  have h2 : l.reverse.dropWhile isPySpace = l.reverse :=
    dropWhile_eq_self_of_head fun c hc =>
      h c (by
        have := List.mem_of_mem_head? (Option.mem_def.mpr hc)
        exact List.mem_reverse.mp this)
  show ((l.dropWhile isPySpace).reverse.dropWhile isPySpace).reverse = l
  rw [h1, h2, List.reverse_reverse]

theorem stripL_idem (l : List Char) : stripL (stripL l) = stripL l := by
  have h1 : (stripL l).dropWhile isPySpace = stripL l :=
    dropWhile_eq_self_of_head (fun c hc => stripL_head hc)
  show (((stripL l).dropWhile isPySpace).reverse.dropWhile isPySpace).reverse = stripL l
  rw [h1]
  rw [dropWhile_eq_self_of_head (fun c hc => by
        rw [List.head?_reverse] at hc
        exact stripL_getLast hc),
      List.reverse_reverse]

/-! ## Lemmas connecting `searchFiles` to infixes -/

theorem searchFiles_none_of_infix {t l : List Char}
    (hinf : t <:+: l) (h : searchFiles l = none) : searchFiles t = none := by
  obtain ⟨u, v, huv⟩ := hinf
  rw [searchFiles_eq_none_iff] at h ⊢
  intro i
  cases hm : matchAt (t.drop i) with
  | none => rfl
  | some ds =>
    by_cases hit : i ≤ t.length
    · obtain ⟨ds', hds'⟩ := matchAt_append (v := v) hm
      have hdrop : l.drop (u.length + i) = t.drop i ++ v := by
        rw [← huv, List.append_assoc, List.drop_append, List.drop_append_of_le_length hit]
      rw [← hdrop] at hds'
      rw [h (u.length + i)] at hds'
      exact absurd hds' (by simp)
    · rw [List.drop_eq_nil_of_le (by omega)] at hm
      have h0 : matchAt ([] : List Char) = none := by decide
      rw [h0] at hm
      exact absurd hm (by simp)

/-! ## Claim theorems for the identifier extractor -/

/-- Claim C5 (as frozen) is false: `"/files/123456"` contains the substring
`/files/12345`, yet the extractor's greedy digit capture returns
`"123456"`, not `"12345"`. -/
theorem claim5_counterexample :
    ("/files/12345".data <:+: ("/files/123456" : String).data)
    ∧ extract_file_id "/files/123456" ≠ "12345" := by
  constructor
  · exact ⟨[], ['6'], by decide⟩
  · decide

/-- Claim C5 (amended): for every input string that contains the substring
`/files/12345` anywhere, the identifier extractor finds the leftmost match
of `/files/<digits>` and returns its captured digit sequence, which is
nonempty and all digits — but need not be `"12345"` (an earlier
`/files/<digits>` occurrence, or further digits directly after `12345`,
yield a different capture). -/
theorem claim5_amended (s : String)
    (hinf : "/files/12345".data <:+: s.data) :
    ∃ ds, searchFiles s.data = some ds
      ∧ ds ≠ [] ∧ (∀ c ∈ ds, isDigitB c = true)
      ∧ extract_file_id s = String.mk ds := by
  obtain ⟨u, v, huv⟩ := hinf
  obtain ⟨ds0, hds0⟩ :=
    matchAt_append (v := v)
      (show matchAt "/files/12345".data = some "12345".data by decide)
  have hdrop : s.data.drop u.length = "/files/12345".data ++ v := by
    rw [← huv, List.append_assoc, List.drop_left]
  obtain ⟨ds, hds⟩ :=
    searchFiles_isSome_of_matchAt (i := u.length) (by rw [hdrop]; exact hds0)
  obtain ⟨hne, hdig⟩ := searchFiles_some_props hds
  exact ⟨ds, hds, hne, hdig, by simp [extract_file_id, hds]⟩

theorem isPySpace_toNat {c : Char} (h : isPySpace c = true) :
    c.toNat = 32 ∨ c.toNat = 9 ∨ c.toNat = 10 ∨ c.toNat = 13
    ∨ c.toNat = 11 ∨ c.toNat = 12 := by
  unfold isPySpace at h
  simp only [Bool.or_eq_true, beq_iff_eq] at h
  rcases h with ((((h | h) | h) | h) | h) | h <;> subst h <;> simp

theorem isDigitB_bounds {c : Char} (h : isDigitB c = true) :
    48 ≤ c.toNat ∧ c.toNat ≤ 57 := by
  simpa [isDigitB, Bool.and_eq_true, decide_eq_true_eq] using h

theorem isDigitB_ne_slash {c : Char} (h : isDigitB c = true) : c ≠ '/' := by
  intro he
  rw [he] at h
  exact absurd h (by decide)

theorem isDigitB_not_space {c : Char} (h : isDigitB c = true) :
    isPySpace c = false := by
  cases hsp : isPySpace c with
  | false => rfl
  | true =>
    have h1 := isDigitB_bounds h
    have h2 := isPySpace_toNat hsp
    omega

/-- Claim C6: for every input string with no substring matching
`/files/<digits>`, the extractor returns the input trimmed of leading and
trailing whitespace and otherwise unchanged (the result is an inner segment
of the input, everything removed on either side is whitespace, and the
result neither starts nor ends with whitespace); being a total function, it
raises no error. -/
theorem claim6_no_pattern (s : String)
    (h : ∀ i, matchAt (s.data.drop i) = none) :
    extract_file_id s = pyStrip s
    ∧ (∃ pre suf, s.data = pre ++ (extract_file_id s).data ++ suf
        ∧ pre.all isPySpace = true ∧ suf.all isPySpace = true)
    ∧ (∀ c, (extract_file_id s).data.head? = some c → isPySpace c = false)
    ∧ (∀ c, (extract_file_id s).data.getLast? = some c → isPySpace c = false) := by
  have hs : searchFiles s.data = none := searchFiles_eq_none_iff.mpr h
  have he : extract_file_id s = pyStrip s := by simp [extract_file_id, hs]
  refine ⟨he, ?_, ?_, ?_⟩
  · rw [he]
    obtain ⟨pre, suf, hd, hp, hsuf⟩ := stripL_decomp s.data
    exact ⟨pre, suf, hd, hp, hsuf⟩
  · rw [he]
    intro c hc
    exact stripL_head hc
  · rw [he]
    intro c hc
    exact stripL_getLast hc

/-- Witness for C6 at the concrete input `"  ab c\t"`. -/
theorem claim6_witness :
    extract_file_id "  ab c\t" = pyStrip "  ab c\t"
    ∧ (∃ pre suf, ("  ab c\t" : String).data
          = pre ++ (extract_file_id "  ab c\t").data ++ suf
        ∧ pre.all isPySpace = true ∧ suf.all isPySpace = true)
    ∧ (∀ c, (extract_file_id "  ab c\t").data.head? = some c → isPySpace c = false)
    ∧ (∀ c, (extract_file_id "  ab c\t").data.getLast? = some c → isPySpace c = false) :=
  claim6_no_pattern "  ab c\t" (searchFiles_eq_none_iff.mp (by decide))

/-- Claim C9: the identifier extractor is idempotent. -/
theorem claim9_idempotent (s : String) :
    extract_file_id (extract_file_id s) = extract_file_id s := by
  cases hs : searchFiles s.data with
  | some ds =>
    have hx : extract_file_id s = String.mk ds := by simp [extract_file_id, hs]
    obtain ⟨hne, hdig⟩ := searchFiles_some_props hs
    have hnone : searchFiles ds = none :=
      searchFiles_none_of_no_slash fun c hc => isDigitB_ne_slash (hdig c hc)
    rw [hx]
    have hb : (String.mk ds).data = ds := rfl
    cases hds2 : searchFiles (String.mk ds).data with
    | some d2 =>
      rw [hb, hnone] at hds2
      exact absurd hds2 (by simp)
    | none =>
      simp only [extract_file_id, hds2]
      show pyStrip (String.mk ds) = String.mk ds
      show String.mk (stripL ds) = String.mk ds
      rw [stripL_eq_self fun c hc => isDigitB_not_space (hdig c hc)]
  | none =>
    have hx : extract_file_id s = pyStrip s := by simp [extract_file_id, hs]
    have hin : stripL s.data <:+: s.data := by
      obtain ⟨pre, suf, hd, _, _⟩ := stripL_decomp s.data
      exact ⟨pre, suf, hd.symm⟩
    have hnone : searchFiles (stripL s.data) = none := searchFiles_none_of_infix hin hs
    rw [hx]
    have hdata : (pyStrip s).data = stripL s.data := rfl
    cases hps : searchFiles (pyStrip s).data with
    | some d2 =>
      rw [hdata, hnone] at hps
      exact absurd hps (by simp)
    | none =>
      simp only [extract_file_id, hps]
      show pyStrip (pyStrip s) = pyStrip s
      show String.mk (stripL (pyStrip s).data) = pyStrip s
      rw [hdata, stripL_idem]
      rfl

/-! ## Case-insensitive comparison -/

theorem caseVariantChar_lower {c d : Char} (h : caseVariantChar c d = true) :
    lowerChar c = lowerChar d := by
  unfold caseVariantChar at h
  simp only [Bool.or_eq_true, Bool.and_eq_true, beq_iff_eq, decide_eq_true_eq] at h
  rcases h with (h | ⟨⟨h1, h2⟩, h3⟩) | ⟨⟨h1, h2⟩, h3⟩
  · rw [h]
  · have hcu : lowerChar c = Char.ofNat (c.toNat + 32) := if_pos ⟨h1, h2⟩
    have hdl : lowerChar d = d := if_neg (by omega)
    rw [hcu, hdl, ← h3, Char.ofNat_toNat]
  · have hdu : lowerChar d = Char.ofNat (d.toNat + 32) := if_pos ⟨h1, h2⟩
    have hcl : lowerChar c = c := if_neg (by omega)
    rw [hdu, hcl, ← h3, Char.ofNat_toNat]

theorem caseVariantL_map_lower : ∀ {xs ys : List Char},
    caseVariantL xs ys = true → xs.map lowerChar = ys.map lowerChar := by
  intro xs
  induction xs with
  | nil =>
    intro ys h
    cases ys with
    | nil => rfl
    | cons d ds => exact absurd h (by simp [caseVariantL])
  | cons c cs ih =>
    intro ys h
    cases ys with
    | nil => exact absurd h (by simp [caseVariantL])
    | cons d ds =>
      simp only [caseVariantL, Bool.and_eq_true] at h
      simp [List.map_cons, caseVariantChar_lower h.1, ih h.2]

/-- Claim C7: the digest comparison is case-insensitive — strings differing
only in ASCII letter case compare equal, and replacing either operand by a
case variant never changes the comparison outcome. -/
theorem claim7_case_insensitive :
    (∀ a b : String, caseVariantL a.data b.data = true → digestsMatch a b = true)
    ∧ (∀ a a2 b b2 : String, caseVariantL a.data a2.data = true →
        caseVariantL b.data b2.data = true →
        digestsMatch a b = digestsMatch a2 b2) := by
  have key : ∀ x y : String, caseVariantL x.data y.data = true →
      strLower x = strLower y := by
    intro x y h
    unfold strLower
    rw [caseVariantL_map_lower h]
  constructor
  · intro a b h
    unfold digestsMatch
    rw [key a b h]
    simp
  · intro a a2 b b2 h1 h2
    unfold digestsMatch
    rw [key a a2 h1, key b b2 h2]

/-- Witness for C7 at `"AB12"` / `"ab12"` (and a case change of each operand). -/
theorem claim7_witness :
    (caseVariantL "AB12".data "ab12".data = true ∧ digestsMatch "AB12" "ab12" = true)
    ∧ (caseVariantL "AB12".data "Ab12".data = true
       ∧ caseVariantL "ab12".data "aB12".data = true
       ∧ digestsMatch "AB12" "ab12" = digestsMatch "Ab12" "aB12") :=
  ⟨⟨by decide, claim7_case_insensitive.1 "AB12" "ab12" (by decide)⟩,
   ⟨by decide, by decide,
    claim7_case_insensitive.2 "AB12" "Ab12" "ab12" "aB12" (by decide) (by decide)⟩⟩

/-! ## URL construction -/

theorem pyFormat1L_apply (pre a rest : List Char) (h : '\x7b' ∉ pre) :
    pyFormat1L a (pre ++ '\x7b' :: '\x7d' :: rest) = pre ++ a ++ rest := by
  induction pre with
  | nil => rfl
  | cons c cs ih =>
    have hc : ¬(c = '\x7b') := fun he => h (he ▸ List.mem_cons_self c cs)
    simp only [List.cons_append, pyFormat1L, if_neg hc]
    exact congrArg (List.cons c) (ih (fun hmem => h (List.mem_cons_of_mem c hmem)))

theorem metadataURL_eq (fid : String) :
    metadataURL fid = "https://datadryad.org//api/v2/files/" ++ fid := by
  have ht : API_FILE.data
      = "https://datadryad.org//api/v2/files/".data ++ '\x7b' :: '\x7d' :: [] := by
    decide
  show String.mk (pyFormat1L fid.data API_FILE.data) = _
  rw [ht, pyFormat1L_apply _ _ _ (by decide), List.append_nil]
  rfl

theorem downloadURL_eq (href : String) :
    downloadURL href = "https://datadryad.org/" ++ href := by
  have ht : DATADRYAD_URL.data
      = "https://datadryad.org/".data ++ '\x7b' :: '\x7d' :: [] := by decide
  show String.mk (pyFormat1L href.data DATADRYAD_URL.data) = _
  rw [ht, pyFormat1L_apply _ _ _ (by decide), List.append_nil]
  rfl

/-- Claim C10: both constructed URLs carry a doubled slash after the host:
the metadata URL is `https://datadryad.org//api/v2/files/<fid>`, and for a
download href beginning with `/` the download URL is
`https://datadryad.org/` + href, which begins `https://datadryad.org//`. -/
theorem claim10_doubled_slash :
    (∀ fid : String, metadataURL fid = "https://datadryad.org//api/v2/files/" ++ fid)
    ∧ (∀ href : String, href.data.head? = some '/' →
        downloadURL href = "https://datadryad.org/" ++ href
        ∧ ∃ rest, (downloadURL href).data = "https://datadryad.org//".data ++ rest) := by
  constructor
  · exact metadataURL_eq
  · intro href hh
    have hd : downloadURL href = "https://datadryad.org/" ++ href := downloadURL_eq href
    refine ⟨hd, ?_⟩
    cases hdata : href.data with
    | nil => rw [hdata] at hh; exact absurd hh (by simp)
    | cons c rest =>
      rw [hdata] at hh
      have hc : c = '/' := by simpa using hh
      refine ⟨rest, ?_⟩
      rw [hd, String.data_append, hdata, hc]
      have hsplit : "https://datadryad.org//".data
          = "https://datadryad.org/".data ++ ['/'] := by decide
      rw [hsplit, List.append_assoc]
      rfl

/-- Witness for C10 at `fid := "9"` and `href := "/dl"`. -/
theorem claim10_witness :
    metadataURL "9" = "https://datadryad.org//api/v2/files/9"
    ∧ ("/dl" : String).data.head? = some '/'
    ∧ downloadURL "/dl" = "https://datadryad.org//dl"
    ∧ ∃ rest, (downloadURL "/dl").data = "https://datadryad.org//".data ++ rest := by
  refine ⟨?_, by decide, ?_, ?_⟩
  · rw [claim10_doubled_slash.1 "9"]
    decide
  · rw [(claim10_doubled_slash.2 "/dl" (by decide)).1]
    decide
  · exact (claim10_doubled_slash.2 "/dl" (by decide)).2

/-! ## The chunked hash accumulation equals the one-shot hash -/

theorem foldl_update (cs : List (List Nat)) (acc : HashCtx) :
    cs.foldl HashCtx.update acc = ⟨acc.acc ++ cs.flatten⟩ := by
  induction cs generalizing acc with
  | nil => simp [List.flatten]
  | cons c cs ih =>
    rw [List.foldl_cons, ih]
    simp [HashCtx.update, List.flatten_cons]

theorem chunkGo_flatten {n : Nat} (hn : n ≠ 0) :
    ∀ (fuel : Nat) (l : List α), l.length ≤ fuel →
      (chunkGo n fuel l).flatten = l := by
  intro fuel
  induction fuel with
  | zero =>
    intro l hl
    have : l = [] := List.eq_nil_of_length_eq_zero (Nat.le_zero.mp hl)
    subst this
    rfl
  | succ fuel ih =>
    intro l hl
    cases l with
    | nil => rfl
    | cons x xs =>
      show (((x :: xs).take n :: chunkGo n fuel ((x :: xs).drop n)).flatten) = x :: xs
      rw [List.flatten_cons, ih ((x :: xs).drop n) (by
        rw [List.length_drop, List.length_cons]
        rw [List.length_cons] at hl
        omega)]
      exact List.take_append_drop n (x :: xs)

theorem chunkList_flatten {n : Nat} (hn : n ≠ 0) (l : List α) :
    (chunkList n l).flatten = l := by
  unfold chunkList
  rw [if_neg hn]
  exact chunkGo_flatten hn l.length l (Nat.le_refl _)

/-- Part of C1: the chunked accumulation `sha256sum` performs equals the
SHA-256 hex digest of the whole byte string. -/
theorem sha256sum_eq_sha256hex (bytes : List Nat) :
    sha256sum bytes = sha256hex bytes := by
  unfold sha256sum
  rw [foldl_update]
  show sha256hex ([] ++ (chunkList CHUNK bytes).flatten) = sha256hex bytes
  rw [List.nil_append, chunkList_flatten (by decide)]

/-! ## The digest is 64 lowercase hex characters -/

theorem sha256round_length (st : List Nat) (kw : Nat × Nat) :
    (sha256round st kw).length = st.length := by
  unfold sha256round
  split
  · simp
  · rfl

theorem foldl_round_length (kws : List (Nat × Nat)) (st : List Nat) :
    (kws.foldl sha256round st).length = st.length := by
  induction kws generalizing st with
  | nil => rfl
  | cons kw kws ih => rw [List.foldl_cons, ih, sha256round_length]

theorem processBlock_length (h b : List Nat) (hh : h.length = 8) :
    (processBlock h b).length = 8 := by
  unfold processBlock
  rw [List.length_map, List.length_zip, foldl_round_length, hh, Nat.min_self]

theorem foldl_processBlock_length (blocks : List (List Nat)) (h : List Nat)
    (hh : h.length = 8) : (blocks.foldl processBlock h).length = 8 := by
  induction blocks generalizing h with
  | nil => exact hh
  | cons b bs ih => rw [List.foldl_cons]; exact ih _ (processBlock_length h b hh)

theorem sha256words_length (msg : List Nat) : (sha256words msg).length = 8 :=
  foldl_processBlock_length _ _ rfl

theorem flatten_map_wordHex_length (ws : List Nat) :
    ((ws.map wordHex).flatten).length = 8 * ws.length := by
  induction ws with
  | nil => rfl
  | cons w ws ih =>
    rw [List.map_cons, List.flatten_cons, List.length_append, ih,
        List.length_cons]
    show (wordHex w).length + 8 * ws.length = 8 * (ws.length + 1)
    have : (wordHex w).length = 8 := by simp [wordHex]
    omega

theorem sha256hex_length (msg : List Nat) : (sha256hex msg).length = 64 := by
  show (((sha256words msg).map wordHex).flatten).length = 64
  rw [flatten_map_wordHex_length, sha256words_length]

theorem hexDigitChar_hex {n : Nat} (h : n < 16) :
    isHexDigitB (hexDigitChar n) = true := by
  interval_cases n <;> decide

theorem sha256hex_chars (msg : List Nat) :
    ∀ c ∈ (sha256hex msg).data, isHexDigitB c = true := by
  intro c hc
  have hc' : c ∈ ((sha256words msg).map wordHex).flatten := hc
  obtain ⟨l, hl, hcl⟩ := List.mem_flatten.mp hc'
  obtain ⟨w, _, hw⟩ := List.mem_map.mp hl
  subst hw
  have hcl2 : c ∈ (List.range 8).map
      (fun i => hexDigitChar ((w >>> ((7 - i) * 4)) % 16)) := hcl
  obtain ⟨i, _, hi⟩ := List.mem_map.mp hcl2
  rw [← hi]
  exact hexDigitChar_hex (Nat.mod_lt _ (by norm_num))

/-! ## File-system model lemmas -/

theorem mkdirModel_parents_ok (fs : FS) (p : String) :
    ∃ fs', mkdirModel fs p true true = Except.ok fs' ∧ fs'.files = fs.files := by
  unfold mkdirModel
  by_cases h : dirExists fs p
  · exact ⟨fs, by rw [if_pos h, if_pos rfl], rfl⟩
  · exact ⟨{ fs with dirs := fs.dirs ++ ancestorsOf (pathComponents p) },
      by rw [if_neg h, if_pos rfl], rfl⟩

theorem lookup_setFile (fs : FS) (p : String) (b : List Nat) :
    ((setFile fs p b).files).lookup p = some b := by
  simp [setFile, List.lookup]

theorem readFileD_setFile (fs : FS) (p : String) (b : List Nat) :
    readFileD (setFile fs p b) p = b := by
  simp [readFileD, lookup_setFile]

theorem lookup_erase_none (l : List (String × List Nat)) (p : String) :
    (l.filter (fun e => !(e.1 == p))).lookup p = none := by
  induction l with
  | nil => rfl
  | cons e es ih =>
    by_cases h : e.1 == p
    · simp [List.filter_cons, h, ih]
    · simp only [List.filter_cons, h, Bool.not_false, if_pos]
      simp only [List.lookup]
      have hne : e.1 ≠ p := by simpa using h
      rw [show (p == e.1) = false from
            beq_eq_false_iff_ne.mpr (fun hp => hne hp.symm)]
      exact ih

theorem unlinkFile_ok (fs : FS) (p : String) :
    ∃ fs', unlinkFile fs p true = Except.ok fs'
      ∧ fs'.files.lookup p = none := by
  unfold unlinkFile
  by_cases h : (fs.files.lookup p).isSome
  · exact ⟨{ fs with files := fs.files.filter (fun e => !(e.1 == p)) },
      by rw [if_pos h], lookup_erase_none _ _⟩
  · refine ⟨fs, by rw [if_neg h, if_pos rfl], ?_⟩
    cases hl : fs.files.lookup p with
    | none => rfl
    | some b => exact absurd (by rw [hl]; rfl) h

/-! ## Run-level claim theorems -/

/-- Claim C1: the integrity verifier computes a SHA-256 digest (hex-encoded,
accumulated over fixed-size chunks — equal to the one-shot SHA-256 of the
file, 64 lowercase hex characters) and the run's outcome compares exactly
that SHA-256 digest against the metadata digest field; the hash algorithm is
never switched. -/
theorem claim1_sha256_verifier :
    (∀ bytes : List Nat, sha256sum bytes = sha256hex bytes)
    ∧ (∀ bytes : List Nat, (sha256hex bytes).length = 64
        ∧ ∀ c ∈ (sha256hex bytes).data, isHexDigitB c = true)
    ∧ (∀ (args : Args) (env : Env) (fs0 : FS),
        raisesForStatus env.metaStatus = false →
        raisesForStatus env.dlStatus = false →
        (mainModel args env fs0).exitCode
          = if digestsMatch (sha256hex env.dlBytes) env.meta.digest then 0 else 1) := by
  refine ⟨sha256sum_eq_sha256hex,
    fun bytes => ⟨sha256hex_length bytes, sha256hex_chars bytes⟩, ?_⟩
  intro args env fs0 hm hd
  obtain ⟨fs1, hfs1, _⟩ := mkdirModel_parents_ok fs0 (resolvePath fs0 args.outdir)
  by_cases hdm : digestsMatch (sha256hex env.dlBytes) env.meta.digest
  · simp only [mainModel, hfs1, hm, hd, Bool.false_eq_true, if_false,
      readFileD_setFile, sha256sum_eq_sha256hex, hdm, if_true]
  · have hdm2 : digestsMatch (sha256hex env.dlBytes) env.meta.digest = false := by
      cases h' : digestsMatch (sha256hex env.dlBytes) env.meta.digest
      · rfl
      · exact absurd h' hdm
    obtain ⟨fs3, hfs3, _⟩ :=
      unlinkFile_ok
        (setFile fs1 (pathJoin (resolvePath fs0 args.outdir) env.meta.path) env.dlBytes)
        (pathJoin (resolvePath fs0 args.outdir) env.meta.path)
    simp only [mainModel, hfs1, hm, hd, Bool.false_eq_true, if_false,
      readFileD_setFile, sha256sum_eq_sha256hex, hdm2, hfs3]

/-- Witness for C1's run-level conjunct at a concrete run. -/
theorem claim1_witness :
    raisesForStatus 200 = false
    ∧ (mainModel ⟨"7", "/out"⟩ ⟨200, ⟨"f.bin", "00", 0, "/dl/7"⟩, 200, []⟩
        ⟨"/", "/root", [], []⟩).exitCode
      = if digestsMatch (sha256hex []) "00" then 0 else 1 :=
  ⟨by decide,
   claim1_sha256_verifier.2.2 ⟨"7", "/out"⟩ ⟨200, ⟨"f.bin", "00", 0, "/dl/7"⟩, 200, []⟩
     ⟨"/", "/root", [], []⟩ (by decide) (by decide)⟩

/-- Claim C2: when the download completes but the digests differ
(case-insensitively), the run deletes the downloaded file, exits non-zero,
and its diagnostic message names both the expected and the actual digest;
the unlink call (with `missing_ok`) tolerates an absent file. -/
theorem claim2_mismatch_cleanup (args : Args) (env : Env) (fs0 : FS)
    (hm : raisesForStatus env.metaStatus = false)
    (hd : raisesForStatus env.dlStatus = false)
    (hmm : digestsMatch (sha256sum env.dlBytes) env.meta.digest = false) :
    (mainModel args env fs0).exitCode ≠ 0
    ∧ ((mainModel args env fs0).fs.files.lookup
        (pathJoin (resolvePath fs0 args.outdir) env.meta.path)) = none
    ∧ (mainModel args env fs0).errMsg
        = some (mismatchMsg env.meta.digest (sha256sum env.dlBytes))
    ∧ (∀ msg, (mainModel args env fs0).errMsg = some msg →
        env.meta.digest.data <:+: msg.data
        ∧ (sha256sum env.dlBytes).data <:+: msg.data)
    ∧ (∀ (fs : FS) (p : String), ∃ fs', unlinkFile fs p true = Except.ok fs') := by
  obtain ⟨fs1, hfs1, _⟩ := mkdirModel_parents_ok fs0 (resolvePath fs0 args.outdir)
  obtain ⟨fs3, hfs3, hnone⟩ :=
    unlinkFile_ok
      (setFile fs1 (pathJoin (resolvePath fs0 args.outdir) env.meta.path) env.dlBytes)
      (pathJoin (resolvePath fs0 args.outdir) env.meta.path)
  have hrun : mainModel args env fs0 =
      { fs := fs3, exitCode := 1,
        errMsg := some (mismatchMsg env.meta.digest (sha256sum env.dlBytes)),
        events := [.mkdirCall (resolvePath fs0 args.outdir),
                   .httpGet (metadataURL (extract_file_id args.fid)),
                   .httpGetStream (downloadURL env.meta.downloadHref),
                   .fileWrite (pathJoin (resolvePath fs0 args.outdir) env.meta.path),
                   .fileUnlink (pathJoin (resolvePath fs0 args.outdir) env.meta.path)] } := by
    simp only [mainModel, hfs1, hm, hd, Bool.false_eq_true, if_false,
      readFileD_setFile, hmm, hfs3]
  refine ⟨by rw [hrun]; simp, by rw [hrun]; exact hnone, by rw [hrun], ?_, ?_⟩
  · intro msg hmsg
    rw [hrun] at hmsg
    have hmsg2 : msg = mismatchMsg env.meta.digest (sha256sum env.dlBytes) :=
      (Option.some.inj hmsg).symm
    subst hmsg2
    constructor
    · exact ⟨"ERROR: MD5 mismatch! Expected ".data,
        (", got " ++ sha256sum env.dlBytes).data, by
          show _ ++ _ ++ _ = (mismatchMsg env.meta.digest (sha256sum env.dlBytes)).data
          simp [mismatchMsg, List.append_assoc]⟩
    · exact ⟨("ERROR: MD5 mismatch! Expected " ++ env.meta.digest ++ ", got ").data,
        [], by
          show _ ++ _ ++ _ = (mismatchMsg env.meta.digest (sha256sum env.dlBytes)).data
          simp [mismatchMsg, List.append_assoc]⟩
  · intro fs p
    obtain ⟨fs', h', _⟩ := unlinkFile_ok fs p
    exact ⟨fs', h'⟩

/-- Witness for C2 at a concrete mismatching run. -/
theorem claim2_witness :
    raisesForStatus 200 = false
    ∧ digestsMatch (sha256sum []) "00" = false
    ∧ ((mainModel ⟨"7", "/out"⟩ ⟨200, ⟨"f.bin", "00", 0, "/dl/7"⟩, 200, []⟩
          ⟨"/", "/root", [], []⟩).exitCode ≠ 0
       ∧ ((mainModel ⟨"7", "/out"⟩ ⟨200, ⟨"f.bin", "00", 0, "/dl/7"⟩, 200, []⟩
            ⟨"/", "/root", [], []⟩).fs.files.lookup
           (pathJoin (resolvePath ⟨"/", "/root", [], []⟩ "/out") "f.bin")) = none
       ∧ (mainModel ⟨"7", "/out"⟩ ⟨200, ⟨"f.bin", "00", 0, "/dl/7"⟩, 200, []⟩
            ⟨"/", "/root", [], []⟩).errMsg = some (mismatchMsg "00" (sha256sum []))
       ∧ (∀ msg, (mainModel ⟨"7", "/out"⟩ ⟨200, ⟨"f.bin", "00", 0, "/dl/7"⟩, 200, []⟩
            ⟨"/", "/root", [], []⟩).errMsg = some msg →
            ("00" : String).data <:+: msg.data ∧ (sha256sum []).data <:+: msg.data)
       ∧ (∀ (fs : FS) (p : String), ∃ fs', unlinkFile fs p true = Except.ok fs')) :=
  ⟨by decide, by decide,
   claim2_mismatch_cleanup ⟨"7", "/out"⟩ ⟨200, ⟨"f.bin", "00", 0, "/dl/7"⟩, 200, []⟩
     ⟨"/", "/root", [], []⟩ (by decide) (by decide) (by decide)⟩

/-- Claim C3: when the download completes and the digests match
case-insensitively, the file remains on disk at `{outdir}/{filename}` with
exactly the downloaded bytes, no unlink ever happens, and the process exits
with status 0. -/
theorem claim3_match_keep (args : Args) (env : Env) (fs0 : FS)
    (hm : raisesForStatus env.metaStatus = false)
    (hd : raisesForStatus env.dlStatus = false)
    (hok : digestsMatch (sha256sum env.dlBytes) env.meta.digest = true)
    (hrel : isAbsolute env.meta.path = false) :
    (mainModel args env fs0).exitCode = 0
    ∧ (mainModel args env fs0).fs.files.lookup
        (resolvePath fs0 args.outdir ++ "/" ++ env.meta.path) = some env.dlBytes
    ∧ (∀ p, Event.fileUnlink p ∉ (mainModel args env fs0).events)
    ∧ (mainModel args env fs0).errMsg = none := by
  obtain ⟨fs1, hfs1, _⟩ := mkdirModel_parents_ok fs0 (resolvePath fs0 args.outdir)
  have hjoin : pathJoin (resolvePath fs0 args.outdir) env.meta.path
      = resolvePath fs0 args.outdir ++ "/" ++ env.meta.path := by
    unfold pathJoin
    rw [if_neg (by simp [hrel])]
  have hrun : mainModel args env fs0 =
      { fs := setFile fs1 (pathJoin (resolvePath fs0 args.outdir) env.meta.path)
                env.dlBytes,
        exitCode := 0, errMsg := none,
        events := [.mkdirCall (resolvePath fs0 args.outdir),
                   .httpGet (metadataURL (extract_file_id args.fid)),
                   .httpGetStream (downloadURL env.meta.downloadHref),
                   .fileWrite (pathJoin (resolvePath fs0 args.outdir) env.meta.path)] } := by
    simp only [mainModel, hfs1, hm, hd, Bool.false_eq_true, if_false,
      readFileD_setFile, hok, if_true]
  refine ⟨by rw [hrun], ?_, ?_, by rw [hrun]⟩
  · rw [hrun, ← hjoin]
    exact lookup_setFile _ _ _
  · intro p
    rw [hrun]
    simp

/-- Witness for C3 at a concrete matching run (SHA-256 of the empty file). -/
theorem claim3_witness :
    digestsMatch (sha256sum [])
      "e3b0c44298fc1c149afbf4c8996fb92427ae41e4649b934ca495991b7852b855" = true
    ∧ ((mainModel ⟨"7", "/out"⟩
          ⟨200, ⟨"f.bin",
              "e3b0c44298fc1c149afbf4c8996fb92427ae41e4649b934ca495991b7852b855",
              0, "/dl/7"⟩, 200, []⟩ ⟨"/", "/root", [], []⟩).exitCode = 0
       ∧ (mainModel ⟨"7", "/out"⟩
            ⟨200, ⟨"f.bin",
                "e3b0c44298fc1c149afbf4c8996fb92427ae41e4649b934ca495991b7852b855",
                0, "/dl/7"⟩, 200, []⟩ ⟨"/", "/root", [], []⟩).fs.files.lookup
           (resolvePath ⟨"/", "/root", [], []⟩ "/out" ++ "/" ++ "f.bin") = some []
       ∧ (∀ p, Event.fileUnlink p ∉ (mainModel ⟨"7", "/out"⟩
            ⟨200, ⟨"f.bin",
                "e3b0c44298fc1c149afbf4c8996fb92427ae41e4649b934ca495991b7852b855",
                0, "/dl/7"⟩, 200, []⟩ ⟨"/", "/root", [], []⟩).events)
       ∧ (mainModel ⟨"7", "/out"⟩
            ⟨200, ⟨"f.bin",
                "e3b0c44298fc1c149afbf4c8996fb92427ae41e4649b934ca495991b7852b855",
                0, "/dl/7"⟩, 200, []⟩ ⟨"/", "/root", [], []⟩).errMsg = none) :=
  ⟨by decide,
   claim3_match_keep ⟨"7", "/out"⟩
     ⟨200, ⟨"f.bin",
         "e3b0c44298fc1c149afbf4c8996fb92427ae41e4649b934ca495991b7852b855",
         0, "/dl/7"⟩, 200, []⟩ ⟨"/", "/root", [], []⟩
     (by decide) (by decide) (by decide) (by decide)⟩

/-- Witness for C5 (amended) at the concrete input `"x/files/12345y"`. -/
theorem claim5_witness :
    ("/files/12345".data <:+: ("x/files/12345y" : String).data)
    ∧ ∃ ds, searchFiles ("x/files/12345y" : String).data = some ds
        ∧ ds ≠ [] ∧ (∀ c ∈ ds, isDigitB c = true)
        ∧ extract_file_id "x/files/12345y" = String.mk ds :=
  ⟨⟨"x".data, "y".data, by decide⟩,
   claim5_amended "x/files/12345y" ⟨"x".data, "y".data, by decide⟩⟩

/-- Claim C4 (amended): when the metadata GET yields an HTTP error status in
400..599 (`raise_for_status` raises exactly for those), the run exits
non-zero without ever issuing the download GET or writing any file. -/
theorem claim4_metadata_error (args : Args) (env : Env) (fs0 : FS)
    (h4 : 400 ≤ env.metaStatus) (h6 : env.metaStatus < 600) :
    (mainModel args env fs0).exitCode ≠ 0
    ∧ (∀ u, Event.httpGetStream u ∉ (mainModel args env fs0).events)
    ∧ (∀ p, Event.fileWrite p ∉ (mainModel args env fs0).events)
    ∧ (mainModel args env fs0).fs.files = fs0.files := by
  obtain ⟨fs1, hfs1, hfiles⟩ := mkdirModel_parents_ok fs0 (resolvePath fs0 args.outdir)
  have hm : raisesForStatus env.metaStatus = true := by
    simp only [raisesForStatus, Bool.and_eq_true, decide_eq_true_eq]
    exact ⟨h4, h6⟩
  have hrun : mainModel args env fs0 =
      { fs := fs1, exitCode := 1, errMsg := some "HTTPError",
        events := [.mkdirCall (resolvePath fs0 args.outdir),
                   .httpGet (metadataURL (extract_file_id args.fid))] } := by
    simp only [mainModel, hfs1, hm, if_true]
  refine ⟨by rw [hrun]; simp, ?_, ?_, by rw [hrun]; exact hfiles⟩
  · intro u
    rw [hrun]
    simp
  · intro p
    rw [hrun]
    simp

/-- Witness for C4 (amended) at a concrete 404 run. -/
theorem claim4_witness :
    (400 ≤ 404 ∧ 404 < 600)
    ∧ ((mainModel ⟨"7", "/out"⟩ ⟨404, ⟨"f.bin", "00", 0, "/dl/7"⟩, 200, []⟩
          ⟨"/", "/root", [], []⟩).exitCode ≠ 0
       ∧ (∀ u, Event.httpGetStream u ∉ (mainModel ⟨"7", "/out"⟩
            ⟨404, ⟨"f.bin", "00", 0, "/dl/7"⟩, 200, []⟩ ⟨"/", "/root", [], []⟩).events)
       ∧ (∀ p, Event.fileWrite p ∉ (mainModel ⟨"7", "/out"⟩
            ⟨404, ⟨"f.bin", "00", 0, "/dl/7"⟩, 200, []⟩ ⟨"/", "/root", [], []⟩).events)
       ∧ (mainModel ⟨"7", "/out"⟩ ⟨404, ⟨"f.bin", "00", 0, "/dl/7"⟩, 200, []⟩
            ⟨"/", "/root", [], []⟩).fs.files = (⟨"/", "/root", [], []⟩ : FS).files) :=
  ⟨by decide,
   claim4_metadata_error ⟨"7", "/out"⟩ ⟨404, ⟨"f.bin", "00", 0, "/dl/7"⟩, 200, []⟩
     ⟨"/", "/root", [], []⟩ (by decide) (by decide)⟩

/-- Claim C4 as frozen is false for "any non-success status": a 304 metadata
response is not a success status, yet `raise_for_status` does not raise for
it, so the run proceeds — it issues the download GET, writes the file, and
(digests matching) even exits 0. -/
theorem claim4_counterexample :
    isSuccessStatus 304 = false
    ∧ (mainModel ⟨"7", "/out"⟩
        ⟨304, ⟨"f.bin",
            "e3b0c44298fc1c149afbf4c8996fb92427ae41e4649b934ca495991b7852b855",
            0, "/dl/7"⟩, 200, []⟩ ⟨"/", "/root", [], []⟩).exitCode = 0
    ∧ Event.httpGetStream "https://datadryad.org//dl/7"
        ∈ (mainModel ⟨"7", "/out"⟩
            ⟨304, ⟨"f.bin",
                "e3b0c44298fc1c149afbf4c8996fb92427ae41e4649b934ca495991b7852b855",
                0, "/dl/7"⟩, 200, []⟩ ⟨"/", "/root", [], []⟩).events
    ∧ Event.fileWrite "/out/f.bin"
        ∈ (mainModel ⟨"7", "/out"⟩
            ⟨304, ⟨"f.bin",
                "e3b0c44298fc1c149afbf4c8996fb92427ae41e4649b934ca495991b7852b855",
                0, "/dl/7"⟩, 200, []⟩ ⟨"/", "/root", [], []⟩).events := by
  refine ⟨by decide, by decide, by decide, by decide⟩

/-! ## The output directory -/

theorem isAbsolute_joinComponents (cs : List String) :
    isAbsolute (joinComponents cs) = true := rfl

theorem bool_eq_false {b : Bool} (h : ¬b = true) : b = false := by
  cases b
  · rfl
  · exact absurd rfl h

theorem mainModel_events_head (args : Args) (env : Env) (fs0 : FS) :
    ∃ rest, (mainModel args env fs0).events
      = Event.mkdirCall (resolvePath fs0 args.outdir) :: rest := by
  obtain ⟨fs1, hfs1, _⟩ := mkdirModel_parents_ok fs0 (resolvePath fs0 args.outdir)
  by_cases hm : raisesForStatus env.metaStatus
  · exact ⟨[.httpGet (metadataURL (extract_file_id args.fid))],
      by simp only [mainModel, hfs1, hm, if_true]⟩
  · have hm2 := bool_eq_false hm
    by_cases hd : raisesForStatus env.dlStatus
    · exact ⟨[.httpGet (metadataURL (extract_file_id args.fid)),
        .httpGetStream (downloadURL env.meta.downloadHref)],
        by simp only [mainModel, hfs1, hm2, Bool.false_eq_true, if_false, hd, if_true]⟩
    · have hd2 := bool_eq_false hd
      by_cases hdm : digestsMatch (sha256sum env.dlBytes) env.meta.digest
      · exact ⟨[.httpGet (metadataURL (extract_file_id args.fid)),
          .httpGetStream (downloadURL env.meta.downloadHref),
          .fileWrite (pathJoin (resolvePath fs0 args.outdir) env.meta.path)],
          by simp only [mainModel, hfs1, hm2, hd2, Bool.false_eq_true, if_false,
            readFileD_setFile, hdm, if_true]⟩
      · have hdm2 := bool_eq_false hdm
        obtain ⟨fs3, hfs3, _⟩ :=
          unlinkFile_ok
            (setFile fs1 (pathJoin (resolvePath fs0 args.outdir) env.meta.path)
              env.dlBytes)
            (pathJoin (resolvePath fs0 args.outdir) env.meta.path)
        exact ⟨[.httpGet (metadataURL (extract_file_id args.fid)),
          .httpGetStream (downloadURL env.meta.downloadHref),
          .fileWrite (pathJoin (resolvePath fs0 args.outdir) env.meta.path),
          .fileUnlink (pathJoin (resolvePath fs0 args.outdir) env.meta.path)],
          by simp only [mainModel, hfs1, hm2, hd2, Bool.false_eq_true, if_false,
            readFileD_setFile, hdm2, hfs3]⟩

theorem mkdir_creates (fs : FS) (p : String) :
    ∃ fs', mkdirModel fs p true true = Except.ok fs'
      ∧ (dirExists fs p = false →
          ∀ a ∈ ancestorsOf (pathComponents p), dirExists fs' a = true)
      ∧ (dirExists fs p = true → fs' = fs) := by
  unfold mkdirModel
  by_cases h : dirExists fs p
  · rw [if_pos h, if_pos rfl]
    exact ⟨fs, rfl, fun hfalse => absurd h (by simp [hfalse]), fun _ => rfl⟩
  · have h2 : dirExists fs p = false := by
      cases hx : dirExists fs p
      · rfl
      · exact absurd hx h
    rw [if_neg h, if_pos rfl]
    refine ⟨_, rfl, fun _ => ?_, fun htrue => absurd htrue (by simp [h2])⟩
    intro a ha
    show (a == "/" || (fs.dirs ++ ancestorsOf (pathComponents p)).contains a) = true
    rw [Bool.or_eq_true]
    right
    exact List.elem_iff.mpr (List.mem_append_right _ ha)

/-- Claim C8: the orchestrator resolves the output-directory argument to an
absolute path; its very first action is the `mkdir(parents, exist_ok)` call
on that path, which precedes any file write, never errors (in particular
not when the directory already exists, in which case it is a no-op), and
creates the directory together with all missing ancestors. -/
theorem claim8_outdir (args : Args) (env : Env) (fs0 : FS) :
    isAbsolute (resolvePath fs0 args.outdir) = true
    ∧ (mainModel args env fs0).events.head?
        = some (Event.mkdirCall (resolvePath fs0 args.outdir))
    ∧ ∃ fs', mkdirModel fs0 (resolvePath fs0 args.outdir) true true = Except.ok fs'
        ∧ (dirExists fs0 (resolvePath fs0 args.outdir) = false →
            ∀ a ∈ ancestorsOf (pathComponents (resolvePath fs0 args.outdir)),
              dirExists fs' a = true)
        ∧ (dirExists fs0 (resolvePath fs0 args.outdir) = true → fs' = fs0) := by
  refine ⟨isAbsolute_joinComponents _, ?_,
    mkdir_creates fs0 (resolvePath fs0 args.outdir)⟩
  obtain ⟨rest, hr⟩ := mainModel_events_head args env fs0
  rw [hr]
  rfl

/-- Witness for C8 at a concrete run with a relative, not yet existing
output directory. -/
theorem claim8_witness :
    isAbsolute (resolvePath ⟨"/", "/root", [], []⟩ "tmp/out") = true
    ∧ (mainModel ⟨"7", "tmp/out"⟩ ⟨404, ⟨"f.bin", "00", 0, "/dl/7"⟩, 200, []⟩
        ⟨"/", "/root", [], []⟩).events.head?
      = some (Event.mkdirCall (resolvePath ⟨"/", "/root", [], []⟩ "tmp/out"))
    ∧ ∃ fs', mkdirModel ⟨"/", "/root", [], []⟩
          (resolvePath ⟨"/", "/root", [], []⟩ "tmp/out") true true = Except.ok fs'
        ∧ (dirExists ⟨"/", "/root", [], []⟩
            (resolvePath ⟨"/", "/root", [], []⟩ "tmp/out") = false →
            ∀ a ∈ ancestorsOf (pathComponents
                (resolvePath ⟨"/", "/root", [], []⟩ "tmp/out")),
              dirExists fs' a = true)
        ∧ (dirExists ⟨"/", "/root", [], []⟩
            (resolvePath ⟨"/", "/root", [], []⟩ "tmp/out") = true →
            fs' = (⟨"/", "/root", [], []⟩ : FS)) :=
  claim8_outdir ⟨"7", "tmp/out"⟩ ⟨404, ⟨"f.bin", "00", 0, "/dl/7"⟩, 200, []⟩
    ⟨"/", "/root", [], []⟩

